import Mathlib

/-!
Verification of the RAF VM bytecode executable codec
(`src/impl/vm/executable.cc`): the instruction model, the per-instruction
serializer/deserializer, the stream framing (save/load), the disassembler,
and the inspection queries.

Machine integers (`Index`, `RegName`, both `int64_t` in the source) are
modelled as `Int`; the narrowing conversions of the source (`int64 → uint8`,
`int64 → uint16`, `int64 → bool`, `int64 → size_t`) are made explicit at
each site where they occur.  C++ `std::vector` indexing `v[i]` (whose
callers in the source guarantee bounds) is modelled by `List.getD · · 0`;
`DCHECK` assertions, which are compiled out in release builds, are
collected separately in `dcheckFields`.
-/

/-- `Index` in the source: a signed 64-bit integer. -/
abbrev Index := Int

/-- `RegName` in the source: a signed 64-bit integer naming a register. -/
abbrev RegName := Int

/-- `DLDataType {code : u8, bits : u8, lanes : u16}`.  The numeric fields are
kept as `Nat`; the width constraints are the `Legal` predicate below. -/
structure DLDataType where
  code : Nat
  bits : Nat
  lanes : Nat
  deriving DecidableEq, Repr

/-- A `DLDataType` representable by its C++ struct: `code`, `bits` fit in a
`uint8_t` and `lanes` in a `uint16_t`. -/
def DLDataType.Legal (d : DLDataType) : Prop :=
  d.code < 256 ∧ d.bits < 256 ∧ d.lanes < 65536

instance (d : DLDataType) : Decidable d.Legal := by
  unfold DLDataType.Legal; infer_instance

/-- The tagged instruction variant (`Instruction` in `raf/vm/vm.h`, used by
`executable.cc`).  Variable-length tails are carried as lists; counts that the
source derives from the list (`ndim`, `num_fields`, `num_args`,
`num_free_vars`) are not duplicated, while `InvokePacked`/`InvokeJit` keep
their explicit `arity` operand as in the source struct. -/
inductive Instruction where
  | move (from_ : RegName) (dst : RegName)
  | ret (result : RegName)
  | fatal
  | invokePacked (packed_index : Index) (arity : Index) (output_size : Index)
      (args : List RegName)
  | allocTensor (storage : RegName) (offset : Index) (shape : List Index)
      (dtype : DLDataType) (dst : RegName) (own : Bool)
  | allocTensorReg (storage : RegName) (offset : Index) (shape_register : RegName)
      (dtype : DLDataType) (dst : RegName) (own : Bool)
  | allocStorage (allocation_size : Index) (alignment : Index) (dtype_hint : DLDataType)
      (device_type : Index) (device_id : Index) (dst : RegName)
  | free (memory : RegName)
  | allocTuple (fields : List RegName) (dst : RegName)
  | allocClosure (func_index : Index) (free_vars : List RegName) (dst : RegName)
  | setShape (data : RegName) (shape : RegName) (dst : RegName)
  | ifOp (test : RegName) (target : RegName) (true_offset : Index) (false_offset : Index)
  | invokeFunc (func_index : Index) (args : List RegName) (dst : RegName)
  | invokeClosure (closure : RegName) (args : List RegName) (dst : RegName)
  | loadConst (const_index : Index) (dst : RegName)
  | loadConsti (val : Index) (dst : RegName)
  | getField (object : RegName) (field_index : Index) (dst : RegName)
  | goto (pc_offset : Index)
  | invokeJit (op_reg : RegName) (arity : Index) (output_size : Index)
      (args : List RegName)
  | inferType (op_reg : RegName) (args : List RegName) (dst : RegName)
  | cudaSetStream (device_id : Index) (stream_id : Index)
  | cudaAddEvent (event_id : Index) (stream_id : Index)
  | cudaWaitEvent (event_id : Index) (stream_id : Index)
  | cudaStreamBarrier
  deriving DecidableEq, Repr

/-- Modelled from the spec: the `Opcode` enumerator values live in
`raf/vm/vm.h`, outside the sources at hand; they are assigned here in the
order of the spec's instruction table.  Every behavior of the codec in
`executable.cc` is invariant under the choice of (injective) numbering. -/
def opMove : Index := 0
/-- Opcode of `Ret`. -/
def opRet : Index := 1
/-- Opcode of `Fatal`. -/
def opFatal : Index := 2
/-- Opcode of `InvokePacked`. -/
def opInvokePacked : Index := 3
/-- Opcode of `AllocTensor`. -/
def opAllocTensor : Index := 4
/-- Opcode of `AllocTensorReg`. -/
def opAllocTensorReg : Index := 5
/-- Opcode of `AllocStorage`. -/
def opAllocStorage : Index := 6
/-- Opcode of `Free`. -/
def opFree : Index := 7
/-- Opcode of `AllocTuple`. -/
def opAllocTuple : Index := 8
/-- Opcode of `AllocClosure`. -/
def opAllocClosure : Index := 9
/-- Opcode of `SetShape`. -/
def opSetShape : Index := 10
/-- Opcode of `If`. -/
def opIf : Index := 11
/-- Opcode of `InvokeFunc`. -/
def opInvokeFunc : Index := 12
/-- Opcode of `InvokeClosure`. -/
def opInvokeClosure : Index := 13
/-- Opcode of `LoadConst`. -/
def opLoadConst : Index := 14
/-- Opcode of `LoadConsti`. -/
def opLoadConsti : Index := 15
/-- Opcode of `GetField`. -/
def opGetField : Index := 16
/-- Opcode of `Goto`. -/
def opGoto : Index := 17
/-- Opcode of `InvokeJit`. -/
def opInvokeJit : Index := 18
/-- Opcode of `InferType`. -/
def opInferType : Index := 19
/-- Opcode of `CudaSetStream`. -/
def opCudaSetStream : Index := 20
/-- Opcode of `CudaAddEvent`. -/
def opCudaAddEvent : Index := 21
/-- Opcode of `CudaWaitEvent`. -/
def opCudaWaitEvent : Index := 22
/-- Opcode of `CudaStreamBarrier`. -/
def opCudaStreamBarrier : Index := 23

/-- `static_cast<Index>(instr.op)`: the opcode tag of an instruction. -/
def Instruction.opcode : Instruction → Index
  | .move .. => opMove
  | .ret .. => opRet
  | .fatal => opFatal
  | .invokePacked .. => opInvokePacked
  | .allocTensor .. => opAllocTensor
  | .allocTensorReg .. => opAllocTensorReg
  | .allocStorage .. => opAllocStorage
  | .free .. => opFree
  | .allocTuple .. => opAllocTuple
  | .allocClosure .. => opAllocClosure
  | .setShape .. => opSetShape
  | .ifOp .. => opIf
  | .invokeFunc .. => opInvokeFunc
  | .invokeClosure .. => opInvokeClosure
  | .loadConst .. => opLoadConst
  | .loadConsti .. => opLoadConsti
  | .getField .. => opGetField
  | .goto .. => opGoto
  | .invokeJit .. => opInvokeJit
  | .inferType .. => opInferType
  | .cudaSetStream .. => opCudaSetStream
  | .cudaAddEvent .. => opCudaAddEvent
  | .cudaWaitEvent .. => opCudaWaitEvent
  | .cudaStreamBarrier => opCudaStreamBarrier

/-- `VMInstructionSerializer`: the flat `(opcode, fields)` form of one
instruction. -/
structure VMInstructionSerializer where
  opcode : Index
  fields : List Index
  deriving DecidableEq, Repr

/-- `bool → Index` conversion of C++ (`fields.push_back(own)`). -/
def boolToIndex (b : Bool) : Index := if b then 1 else 0

/-- `SerializeInstruction` of `executable.cc` (lines 250-448): flatten one
instruction into `(opcode, fields)`.  The `uint8/uint16` dtype members widen
losslessly to `Index`; the variable tails `args`/`shape`/`fields`/`free_vars`
are copied; for `InvokePacked`/`InvokeJit` the source copies exactly `arity`
elements from the args array (`fields.insert(fields.end(), args, args + arity)`),
modelled by `List.take arity.toNat`. -/
def SerializeInstruction (instr : Instruction) : VMInstructionSerializer :=
  match instr with
  | .move from_ dst => ⟨opMove, [from_, dst]⟩
  | .ret result => ⟨opRet, [result]⟩
  | .fatal => ⟨opFatal, []⟩
  | .invokePacked packed_index arity output_size args =>
      ⟨opInvokePacked, [packed_index, arity, output_size] ++ args.take arity.toNat⟩
  | .allocTensor storage offset shape dtype dst own =>
      ⟨opAllocTensor,
        [storage, offset, (dtype.code : Int), (dtype.bits : Int), (dtype.lanes : Int),
         boolToIndex own, (shape.length : Int), dst] ++ shape⟩
  | .allocTensorReg storage offset shape_register dtype dst own =>
      ⟨opAllocTensorReg,
        [storage, offset, shape_register, (dtype.code : Int), (dtype.bits : Int),
         (dtype.lanes : Int), dst, boolToIndex own]⟩
  | .allocStorage allocation_size alignment dtype_hint device_type device_id dst =>
      ⟨opAllocStorage,
        [allocation_size, alignment, (dtype_hint.code : Int), (dtype_hint.bits : Int),
         (dtype_hint.lanes : Int), device_type, device_id, dst]⟩
  | .free memory => ⟨opFree, [memory]⟩
  | .allocTuple fields dst =>
      ⟨opAllocTuple, [(fields.length : Int), dst] ++ fields⟩
  | .allocClosure func_index free_vars dst =>
      ⟨opAllocClosure, [func_index, (free_vars.length : Int), dst] ++ free_vars⟩
  | .setShape data shape dst => ⟨opSetShape, [data, shape, dst]⟩
  | .ifOp test target true_offset false_offset =>
      ⟨opIf, [test, target, true_offset, false_offset]⟩
  | .invokeFunc func_index args dst =>
      ⟨opInvokeFunc, [func_index, (args.length : Int), dst] ++ args⟩
  | .invokeClosure closure args dst =>
      ⟨opInvokeClosure, [closure, (args.length : Int), dst] ++ args⟩
  | .loadConst const_index dst => ⟨opLoadConst, [const_index, dst]⟩
  | .loadConsti val dst => ⟨opLoadConsti, [val, dst]⟩
  | .getField object field_index dst => ⟨opGetField, [object, field_index, dst]⟩
  | .goto pc_offset => ⟨opGoto, [pc_offset]⟩
  | .invokeJit op_reg arity output_size args =>
      ⟨opInvokeJit, [op_reg, arity, output_size] ++ args.take arity.toNat⟩
  | .inferType op_reg args dst =>
      ⟨opInferType, [op_reg, (args.length : Int), dst] ++ args⟩
  | .cudaSetStream device_id stream_id => ⟨opCudaSetStream, [device_id, stream_id]⟩
  | .cudaAddEvent event_id stream_id => ⟨opCudaAddEvent, [event_id, stream_id]⟩
  | .cudaWaitEvent event_id stream_id => ⟨opCudaWaitEvent, [event_id, stream_id]⟩
  | .cudaStreamBarrier => ⟨opCudaStreamBarrier, []⟩

/-- C++ `instr.fields[i]` (in-bounds at every use site reached from the
source's inputs). -/
def idxD (fs : List Index) (i : Nat) : Index := fs.getD i 0

/-- `ExtractFields` of `executable.cc` (lines 533-541): copy `cnt` fields
starting at `start`; its `CHECK_LE(static_cast<size_t>(start + cnt), size)`
aborts when the bound fails (a negative `start + cnt` casts to a huge
`size_t`, also failing the check). -/
def ExtractFields (instr_fields : List Index) (start cnt : Index) :
    Option (List Index) :=
  if start + cnt < 0 then none
  else if (start + cnt).toNat ≤ instr_fields.length then
    some ((instr_fields.drop start.toNat).take cnt.toNat)
  else none

/-- `int64 → uint8` narrowing used by the decoder for `dtype.code`/`bits`. -/
def toU8 (i : Index) : Nat := (i % 256).toNat

/-- `int64 → uint16` narrowing used by the decoder for `dtype.lanes`. -/
def toU16 (i : Index) : Nat := (i % 65536).toNat

/-- `int64 → bool` conversion used by the decoder for `own`. -/
def toBool (i : Index) : Bool := i != 0

/-- `int64 → size_t` cast used inside the source's `DCHECK` field counts. -/
def toSizeT (i : Index) : Nat := (i % (2 ^ 64)).toNat

/-- `DeserializeInstruction` of `executable.cc` (lines 543-766).  `none`
models the aborting paths: the `LOG(FATAL)` on an unknown opcode and the
`CHECK_LE` inside `ExtractFields`.  The `DCHECK` field-count assertions are
compiled out of release builds; they are recorded in `dcheckFields` below. -/
def DeserializeInstruction (instr : VMInstructionSerializer) : Option Instruction :=
  let fs := instr.fields
  if instr.opcode = opMove then
    some (.move (idxD fs 0) (idxD fs 1))
  else if instr.opcode = opRet then
    some (.ret (idxD fs 0))
  else if instr.opcode = opFatal then
    some .fatal
  else if instr.opcode = opInvokePacked then
    match ExtractFields fs 3 (idxD fs 1) with
    | none => none
    | some args => some (.invokePacked (idxD fs 0) (idxD fs 1) (idxD fs 2) args)
  else if instr.opcode = opAllocTensor then
    match ExtractFields fs 8 (idxD fs 6) with
    | none => none
    | some shape =>
        some (.allocTensor (idxD fs 0) (idxD fs 1) shape
          ⟨toU8 (idxD fs 2), toU8 (idxD fs 3), toU16 (idxD fs 4)⟩
          (idxD fs 7) (toBool (idxD fs 5)))
  else if instr.opcode = opAllocTensorReg then
    some (.allocTensorReg (idxD fs 0) (idxD fs 1) (idxD fs 2)
      ⟨toU8 (idxD fs 3), toU8 (idxD fs 4), toU16 (idxD fs 5)⟩
      (idxD fs 6) (toBool (idxD fs 7)))
  else if instr.opcode = opAllocTuple then
    match ExtractFields fs 2 (idxD fs 0) with
    | none => none
    | some fields => some (.allocTuple fields (idxD fs 1))
  else if instr.opcode = opAllocClosure then
    match ExtractFields fs 3 (idxD fs 1) with
    | none => none
    | some free_vars => some (.allocClosure (idxD fs 0) free_vars (idxD fs 2))
  else if instr.opcode = opAllocStorage then
    some (.allocStorage (idxD fs 0) (idxD fs 1)
      ⟨toU8 (idxD fs 2), toU8 (idxD fs 3), toU16 (idxD fs 4)⟩
      (idxD fs 5) (idxD fs 6) (idxD fs 7))
  else if instr.opcode = opFree then
    some (.free (idxD fs 0))
  else if instr.opcode = opSetShape then
    some (.setShape (idxD fs 0) (idxD fs 1) (idxD fs 2))
  else if instr.opcode = opIf then
    some (.ifOp (idxD fs 0) (idxD fs 1) (idxD fs 2) (idxD fs 3))
  else if instr.opcode = opInvokeFunc then
    match ExtractFields fs 3 (idxD fs 1) with
    | none => none
    | some args => some (.invokeFunc (idxD fs 0) args (idxD fs 2))
  else if instr.opcode = opInvokeClosure then
    match ExtractFields fs 3 (idxD fs 1) with
    | none => none
    | some args => some (.invokeClosure (idxD fs 0) args (idxD fs 2))
  else if instr.opcode = opLoadConst then
    some (.loadConst (idxD fs 0) (idxD fs 1))
  else if instr.opcode = opLoadConsti then
    some (.loadConsti (idxD fs 0) (idxD fs 1))
  else if instr.opcode = opGetField then
    some (.getField (idxD fs 0) (idxD fs 1) (idxD fs 2))
  else if instr.opcode = opGoto then
    some (.goto (idxD fs 0))
  else if instr.opcode = opInvokeJit then
    match ExtractFields fs 3 (idxD fs 1) with
    | none => none
    | some args => some (.invokeJit (idxD fs 0) (idxD fs 1) (idxD fs 2) args)
  else if instr.opcode = opInferType then
    match ExtractFields fs 3 (idxD fs 1) with
    | none => none
    | some args => some (.inferType (idxD fs 0) args (idxD fs 2))
  else if instr.opcode = opCudaSetStream then
    some (.cudaSetStream (idxD fs 0) (idxD fs 1))
  else if instr.opcode = opCudaAddEvent then
    some (.cudaAddEvent (idxD fs 0) (idxD fs 1))
  else if instr.opcode = opCudaWaitEvent then
    some (.cudaWaitEvent (idxD fs 0) (idxD fs 1))
  else if instr.opcode = opCudaStreamBarrier then
    some .fatal
  else none

/-- The `DCHECK` field-count assertions of `DeserializeInstruction`
(debug-only in the source), collected per opcode. -/
def dcheckFields (opcode : Index) (fs : List Index) : Bool :=
  if opcode = opMove then fs.length == 2
  else if opcode = opRet then fs.length == 1
  else if opcode = opFatal then fs.isEmpty
  else if opcode = opInvokePacked then
    3 ≤ fs.length && fs.length == 3 + toSizeT (idxD fs 1)
  else if opcode = opAllocTensor then
    8 ≤ fs.length && fs.length == 8 + toSizeT (idxD fs 6)
  else if opcode = opAllocTensorReg then fs.length == 7
  else if opcode = opAllocTuple then
    2 ≤ fs.length && fs.length == 2 + toSizeT (idxD fs 0)
  else if opcode = opAllocClosure then
    3 ≤ fs.length && fs.length == 3 + toSizeT (idxD fs 1)
  else if opcode = opAllocStorage then 6 ≤ fs.length
  else if opcode = opFree then fs.length == 1
  else if opcode = opSetShape then 3 ≤ fs.length
  else if opcode = opIf then fs.length == 4
  else if opcode = opInvokeFunc then
    3 ≤ fs.length && fs.length == 3 + toSizeT (idxD fs 1)
  else if opcode = opInvokeClosure then
    3 ≤ fs.length && fs.length == 3 + toSizeT (idxD fs 1)
  else if opcode = opLoadConst then fs.length == 2
  else if opcode = opLoadConsti then fs.length == 2
  else if opcode = opGetField then fs.length == 3
  else if opcode = opGoto then fs.length == 1
  else if opcode = opInvokeJit then
    3 ≤ fs.length && fs.length == 3 + toSizeT (idxD fs 1)
  else if opcode = opInferType then
    3 ≤ fs.length && fs.length == 3 + toSizeT (idxD fs 1)
  else if opcode = opCudaSetStream then fs.length == 2
  else if opcode = opCudaAddEvent then fs.length == 2
  else if opcode = opCudaWaitEvent then fs.length == 2
  else if opcode = opCudaStreamBarrier then fs.isEmpty
  else true

/-- A legal operand assignment: the explicit `arity` of `InvokePacked` and
`InvokeJit` equals the length of its argument vector, and every embedded
`DLDataType` fits its C++ field widths.  All other operands are
unconstrained 64-bit values. -/
def Instruction.LegalOperands : Instruction → Prop
  | .invokePacked _ arity _ args => arity = (args.length : Int)
  | .invokeJit _ arity _ args => arity = (args.length : Int)
  | .allocTensor _ _ _ dtype _ _ => dtype.Legal
  | .allocTensorReg _ _ _ dtype _ _ => dtype.Legal
  | .allocStorage _ _ dtype _ _ _ => dtype.Legal
  | _ => True

instance (i : Instruction) : Decidable i.LegalOperands := by
  cases i <;> (unfold Instruction.LegalOperands; infer_instance)

/-! ### Round-trip lemmas for the instruction codec -/

theorem toU8_coe {n : Nat} (h : n < 256) : toU8 (n : Int) = n := by
  unfold toU8
  rw [Int.emod_eq_of_lt (by positivity) (by exact_mod_cast h)]
  exact Int.toNat_natCast n

theorem toU16_coe {n : Nat} (h : n < 65536) : toU16 (n : Int) = n := by
  unfold toU16
  rw [Int.emod_eq_of_lt (by positivity) (by exact_mod_cast h)]
  exact Int.toNat_natCast n

theorem toBool_boolToIndex (b : Bool) : toBool (boolToIndex b) = b := by
  cases b <;> decide

theorem extractFields_append (pre args : List Index) :
    ExtractFields (pre ++ args) (pre.length : Int) (args.length : Int) = some args := by
  unfold ExtractFields
  rw [if_neg (Int.not_lt.mpr (by positivity)), if_pos (by rw [List.length_append]; omega)]
  simp [Int.toNat_natCast, List.drop_left, List.take_length]

attribute [simp] opMove opRet opFatal opInvokePacked opAllocTensor opAllocTensorReg opAllocStorage opFree opAllocTuple opAllocClosure opSetShape opIf opInvokeFunc opInvokeClosure opLoadConst opLoadConsti opGetField opGoto opInvokeJit opInferType opCudaSetStream opCudaAddEvent opCudaWaitEvent opCudaStreamBarrier

theorem extractFields_two (a b : Index) (args : List Index) :
    ExtractFields (a :: b :: args) 2 (args.length : Int) = some args := by
  simpa using extractFields_append [a, b] args

theorem extractFields_three (a b c : Index) (args : List Index) :
    ExtractFields (a :: b :: c :: args) 3 (args.length : Int) = some args := by
  simpa using extractFields_append [a, b, c] args

theorem extractFields_eight (a b c d e f g h : Index) (args : List Index) :
    ExtractFields (a :: b :: c :: d :: e :: f :: g :: h :: args) 8 (args.length : Int) =
      some args := by
  simpa using extractFields_append [a, b, c, d, e, f, g, h] args

/-- The instruction codec round-trips every legal instruction except
`CudaStreamBarrier` (whose decode case returns `Fatal`). -/
theorem instruction_roundtrip (i : Instruction) (hl : i.LegalOperands)
    (hb : i ≠ .cudaStreamBarrier) :
    DeserializeInstruction (SerializeInstruction i) = some i := by
  cases i <;>
    simp_all [SerializeInstruction, DeserializeInstruction, idxD,
      Instruction.LegalOperands, DLDataType.Legal, toBool_boolToIndex,
      extractFields_two, extractFields_three, extractFields_eight,
      toU8_coe, toU16_coe, Int.toNat_natCast]

/-- C1: the claimed universal round-trip
`DeserializeInstruction(SerializeInstruction(i)) == i` fails on the code at
`i = CudaStreamBarrier`: the decoder's `CudaStreamBarrier` case returns a
`Fatal` instruction, so the serialized barrier does not decode back to
itself. -/
theorem C1_roundtrip_fails_at_cudaStreamBarrier :
    DeserializeInstruction (SerializeInstruction Instruction.cudaStreamBarrier) ≠
      some Instruction.cudaStreamBarrier := by
  decide

/-- C3: decoding a serialized `CudaStreamBarrier` (opcode with empty field
list) yields a `Fatal` instruction, which is a different variant from
`CudaStreamBarrier`. -/
theorem C3_cudaStreamBarrier_decodes_to_fatal :
    DeserializeInstruction (SerializeInstruction Instruction.cudaStreamBarrier) =
        some Instruction.fatal ∧
      Instruction.fatal ≠ Instruction.cudaStreamBarrier := by
  constructor
  · decide
  · decide

/-- C2: for `AllocTensorReg` the encoder emits exactly the 8 fields
`[storage, offset, shape_register, dtype.code, dtype.bits, dtype.lanes, dst, own]`
in that order, while the decoder's (debug-only) field-count check demands
exactly 7 fields and the decoder nonetheless reads `own` from index 7. -/
theorem C2_allocTensorReg_encode_decode_asymmetry :
    (∀ (storage offset shape_register : RegName) (code bits lanes : Nat)
        (dst : RegName) (own : Bool),
      SerializeInstruction
          (.allocTensorReg storage offset shape_register ⟨code, bits, lanes⟩ dst own) =
        ⟨opAllocTensorReg,
          [storage, offset, shape_register, (code : Int), (bits : Int), (lanes : Int),
           dst, boolToIndex own]⟩) ∧
    (∀ fs : List Index, dcheckFields opAllocTensorReg fs = (fs.length == 7)) ∧
    (∀ fs : List Index,
      DeserializeInstruction ⟨opAllocTensorReg, fs⟩ =
        some (.allocTensorReg (idxD fs 0) (idxD fs 1) (idxD fs 2)
          ⟨toU8 (idxD fs 3), toU8 (idxD fs 4), toU16 (idxD fs 5)⟩
          (idxD fs 6) (toBool (idxD fs 7)))) := by
  refine ⟨fun _ _ _ _ _ _ _ _ => rfl, fun fs => ?_, fun fs => ?_⟩
  · simp [dcheckFields]
  · simp [DeserializeInstruction]

/-- C4 counterexample: a concrete `AllocStorage` instruction serializes to 8
fields, not the 9 the claim states. -/
theorem C4_counterexample_allocStorage_not_nine_fields :
    (SerializeInstruction
        (Instruction.allocStorage 64 8 ⟨0, 32, 1⟩ 1 0 3)).fields.length ≠ 9 := by
  decide

/-- C4 (amended): every `AllocStorage` instruction serializes to exactly 8
fields, and the decoder does not enforce that count — its debug-only
assertion only demands at least 6 fields, while the decode itself reads the
fields at indices 0..7 unconditionally. -/
theorem C4_allocStorage_eight_fields :
    (∀ (allocation_size alignment : Index) (dtype_hint : DLDataType)
        (device_type device_id dst : Index),
      (SerializeInstruction
          (.allocStorage allocation_size alignment dtype_hint device_type device_id
            dst)).fields.length = 8) ∧
    (∀ fs : List Index, dcheckFields opAllocStorage fs = decide (6 ≤ fs.length)) ∧
    (∀ fs : List Index,
      DeserializeInstruction ⟨opAllocStorage, fs⟩ =
        some (.allocStorage (idxD fs 0) (idxD fs 1)
          ⟨toU8 (idxD fs 2), toU8 (idxD fs 3), toU16 (idxD fs 4)⟩
          (idxD fs 5) (idxD fs 6) (idxD fs 7))) := by
  refine ⟨fun _ _ _ _ _ _ => rfl, fun fs => ?_, fun fs => ?_⟩
  · simp [dcheckFields]
  · simp [DeserializeInstruction]

/-! ### Byte-stream framing

Modelled from the spec (§6, External interfaces): the dmlc stream
collaborator writes a `u64` as 8 raw little-endian bytes, a string as a
`u64` length followed by its bytes, and a list as a `u64` count followed by
its elements.  An `Index` travels as its 64-bit two's-complement pattern.
Characters are identified with single bytes (the names at hand are ASCII). -/

/-- Little-endian value of a byte list. -/
def decodeLE (bs : List Nat) : Nat := bs.foldr (fun b acc => b + 256 * acc) 0

/-- Modelled from the spec: a `u64` as 8 raw little-endian bytes. -/
def encodeU64 (n : Nat) : List Nat := (List.range 8).map (fun i => n / 256 ^ i % 256)

/-- Read a `u64`; `none` is a short read. -/
def readU64 (s : List Nat) : Option (Nat × List Nat) :=
  if 8 ≤ s.length then some (decodeLE (s.take 8), s.drop 8) else none

/-- Modelled from the spec: an `Index` as its 64-bit two's-complement bytes. -/
def encodeI64 (i : Int) : List Nat := encodeU64 (i % (2 ^ 64)).toNat

/-- Read an `Index` (64-bit two's complement). -/
def readI64 (s : List Nat) : Option (Int × List Nat) :=
  (readU64 s).map (fun p => (if p.1 < 2 ^ 63 then (p.1 : Int) else (p.1 : Int) - 2 ^ 64, p.2))

/-- Modelled from the spec: a string as `u64` length plus bytes. -/
def encodeString (s : String) : List Nat := encodeU64 s.length ++ s.data.map Char.toNat

/-- Read a string; `none` is a short read. -/
def readString (s : List Nat) : Option (String × List Nat) :=
  match readU64 s with
  | none => none
  | some (n, r) =>
      if n ≤ r.length then some (String.mk ((r.take n).map Char.ofNat), r.drop n) else none

/-- Modelled from the spec: a string list as `u64` count plus elements. -/
def encodeStringList (l : List String) : List Nat :=
  encodeU64 l.length ++ (l.map encodeString).flatten

/-- Read `n` consecutive strings. -/
def readStrings (n : Nat) (s : List Nat) : Option (List String × List Nat) :=
  match n with
  | 0 => some ([], s)
  | n + 1 =>
      match readString s with
      | none => none
      | some (x, r) =>
          match readStrings n r with
          | none => none
          | some (xs, r2) => some (x :: xs, r2)

/-- Read a string list (`u64` count plus elements). -/
def readStringList (s : List Nat) : Option (List String × List Nat) :=
  match readU64 s with
  | none => none
  | some (n, r) => readStrings n r

/-- Modelled from the spec: an `Index` list as `u64` count plus elements. -/
def encodeI64List (l : List Int) : List Nat :=
  encodeU64 l.length ++ (l.map encodeI64).flatten

/-- Read `n` consecutive `Index` values. -/
def readI64s (n : Nat) (s : List Nat) : Option (List Int × List Nat) :=
  match n with
  | 0 => some ([], s)
  | n + 1 =>
      match readI64 s with
      | none => none
      | some (x, r) =>
          match readI64s n r with
          | none => none
          | some (xs, r2) => some (x :: xs, r2)

/-- Read an `Index` list (`u64` count plus elements). -/
def readI64List (s : List Nat) : Option (List Int × List Nat) :=
  match readU64 s with
  | none => none
  | some (n, r) => readI64s n r

/-- Modelled from the spec: `kMetaVMBytecodeMagic`, the fixed 64-bit magic
constant (its numeric value lives in `raf/vm/vm.h`, outside the sources at
hand; no behavior in `executable.cc` depends on the value). -/
def kMetaVMBytecodeMagic : Nat := 0xD225DE2F4214151D

/-- Modelled from the spec: the producer's version string (`TVM_VERSION`
macro); only exact equality with it matters to the codec. -/
def tvmVersion : String := "0.8.0"

/-- The `STREAM_CHECK` failure message with its section name. -/
def streamError (sec : String) : String :=
  "Invalid VM file format in the " ++ sec ++ " section." ++ "\n"

/-- `SaveHeader` (lines 167-172): magic then version. -/
def SaveHeader : List Nat := encodeU64 kMetaVMBytecodeMagic ++ encodeString tvmVersion

/-- `LoadHeader` (lines 467-477): check magic (section `header`) then
version (section `version`). -/
def LoadHeader (s : List Nat) : Except String (List Nat) :=
  match readU64 s with
  | none => .error (streamError "header")
  | some (m, r) =>
      if m ≠ kMetaVMBytecodeMagic then .error (streamError "header")
      else
        match readString r with
        | none => .error (streamError "version")
        | some (v, r2) =>
            if v ≠ tvmVersion then .error (streamError "version") else .ok r2

/-- `VMFunction`: name, parameter names, instruction sequence, register file
size (constructor argument order as in
`VMFunction(name, params, instructions, register_file_size)`). -/
structure VMFunction where
  name : String
  params : List String
  instructions : List Instruction
  register_file_size : Index
  deriving DecidableEq, Repr

instance : Inhabited VMFunction := ⟨⟨"", [], [], 0⟩⟩

/-- The `Executable` aggregate.  `constants` are the opaque values of the
external `SerializeValue`/`DeserializeValue` collaborator, so their type is
a parameter; the two directories are association lists standing for the
source's `unordered_map` (key-distinct; iteration order immaterial to every
result proved below). -/
structure Executable (V : Type) where
  constants : List V
  global_map : List (String × Index)
  primitive_map : List (String × Index)
  functions : List VMFunction

/-- `unordered_map::find`. -/
def lookupMap (m : List (String × Index)) (k : String) : Option Index :=
  (m.find? (fun p => p.1 == k)).map Prod.snd

/-- `unordered_map::insert`: keeps the existing entry when the key is
already present. -/
def insertMap (m : List (String × Index)) (k : String) (v : Index) :
    List (String × Index) :=
  if (lookupMap m k).isSome then m else m ++ [(k, v)]

/-- The comparator of `SaveGlobalSection`'s `std::sort`, on the `Index`
component.  (The source compares with `<`; on the duplicate-free index sets
of well-formed executables every comparison sort computes the same list, and
`insertionSort` below realizes it.) -/
def bySnd (a b : String × Index) : Prop := a.2 ≤ b.2

instance : DecidableRel bySnd := fun a b => Int.decLe a.2 b.2

instance : IsTotal (String × Index) bySnd := ⟨fun a b => Int.le_total a.2 b.2⟩

instance : IsTrans (String × Index) bySnd := ⟨fun _ _ _ => Int.le_trans⟩

/-- `Executable::SaveGlobalSection` (lines 200-213): sort the `(name, index)`
pairs ascending by index and write the name list. -/
def Executable.SaveGlobalSection (e : Executable V) : List Nat :=
  encodeStringList ((List.insertionSort bySnd e.global_map).map Prod.fst)

/-- `Executable::SaveConstantSection` (lines 215-220): `u64` count then each
value through the external `SerializeValue` collaborator `sv`. -/
def Executable.SaveConstantSection (sv : V → List Nat) (e : Executable V) : List Nat :=
  encodeU64 e.constants.length ++ (e.constants.map sv).flatten

/-- One step of `SavePrimitiveOpNames`' slot filling:
`if (size() <= packed_index) resize(packed_index + 1); v[packed_index] = name`
(the `static_cast<size_t>` of the nonnegative packed index is `Int.toNat`). -/
def setSlot (v : List String) (i : Index) (name : String) : List String :=
  let n := i.toNat
  let v' := if v.length ≤ n then v ++ List.replicate (n + 1 - v.length) "" else v
  v'.set n name

/-- The primitive-name vector: each map entry placed at its packed-index
slot, gaps left as empty strings. -/
def primSlots (m : List (String × Index)) : List String :=
  m.foldl (fun v p => setSlot v p.2 p.1) []

/-- `Executable::SavePrimitiveOpNames` (lines 222-232). -/
def Executable.SavePrimitiveOpNames (e : Executable V) : List Nat :=
  encodeStringList (primSlots e.primitive_map)

/-- `VMFunctionSerializer`: the per-function header record
`{name, register_file_size, num_instructions, params}` of the code
section. -/
structure VMFunctionSerializer where
  name : String
  register_file_size : Index
  num_instructions : Nat
  params : List String
  deriving DecidableEq, Repr

/-- Modelled from the spec: `VMFunctionSerializer::Save` lives in
`serialize_util.h`, outside the sources at hand; §4.2 fixes the record as
`{name, register_file_size, num_instructions, params}` in order. -/
def VMFunctionSerializer.save (r : VMFunctionSerializer) : List Nat :=
  encodeString r.name ++ encodeI64 r.register_file_size ++
    encodeU64 r.num_instructions ++ encodeStringList r.params

/-- Read one function header record. -/
def readFuncRecord (s : List Nat) : Option (VMFunctionSerializer × List Nat) :=
  match readString s with
  | none => none
  | some (nm, s1) =>
      match readI64 s1 with
      | none => none
      | some (rfs, s2) =>
          match readU64 s2 with
          | none => none
          | some (ni, s3) =>
              match readStringList s3 with
              | none => none
              | some (ps, s4) => some (⟨nm, rfs, ni, ps⟩, s4)

/-- Modelled from the spec: `VMInstructionSerializer::Save` lives in
`serialize_util.h`, outside the sources at hand; §4.2 fixes the record as
`(opcode, fields)`. -/
def VMInstructionSerializer.save (r : VMInstructionSerializer) : List Nat :=
  encodeI64 r.opcode ++ encodeI64List r.fields

/-- Read one instruction record. -/
def readInstrRecord (s : List Nat) : Option (VMInstructionSerializer × List Nat) :=
  match readI64 s with
  | none => none
  | some (op, s1) =>
      match readI64List s1 with
      | none => none
      | some (fs, s2) => some (⟨op, fs⟩, s2)

/-- `Executable::SaveCodeSection` (lines 450-465): `u64` function count, then
per function its header record followed by its serialized instructions. -/
def Executable.SaveCodeSection (e : Executable V) : List Nat :=
  encodeU64 e.functions.length ++
    (e.functions.map (fun f =>
      VMFunctionSerializer.save ⟨f.name, f.register_file_size, f.instructions.length, f.params⟩ ++
        (f.instructions.map (fun i => (SerializeInstruction i).save)).flatten)).flatten

/-- `Executable::Save` (lines 174-198): header, global, constant, primitive
and code sections, in order, into the owned code buffer. -/
def Executable.Save (sv : V → List Nat) (e : Executable V) : List Nat :=
  SaveHeader ++ e.SaveGlobalSection ++ e.SaveConstantSection sv ++
    e.SavePrimitiveOpNames ++ e.SaveCodeSection

/-- `Executable::LoadGlobalSection` (lines 503-509): read the name list
(section `global`) and insert `(name, position)` pairs. -/
def LoadGlobalSection (s : List Nat) : Except String (List (String × Index) × List Nat) :=
  match readStringList s with
  | none => .error (streamError "global")
  | some (gs, r) =>
      .ok (gs.enum.foldl (fun m p => insertMap m p.2 (p.1 : Int)) [], r)

/-- Read `n` constants through the external `DeserializeValue`
collaborator `dv` (whose own failure aborts the load). -/
def readValues (dv : List Nat → Option (V × List Nat)) (n : Nat) (s : List Nat) :
    Except String (List V × List Nat) :=
  match n with
  | 0 => .ok ([], s)
  | n + 1 =>
      match dv s with
      | none => .error (streamError "constant")
      | some (v, r) =>
          match readValues dv n r with
          | .error e => .error e
          | .ok (vs, r2) => .ok (v :: vs, r2)

/-- `Executable::LoadConstantSection` (lines 511-521): `u64` count (section
`constant`) then the values. -/
def LoadConstantSection (dv : List Nat → Option (V × List Nat)) (s : List Nat) :
    Except String (List V × List Nat) :=
  match readU64 s with
  | none => .error (streamError "constant")
  | some (n, r) => readValues dv n r

/-- `Executable::LoadPrimitiveOpNames` (lines 523-529): read the name list
(section `primitive name`) and insert `(name, position)` pairs. -/
def LoadPrimitiveOpNames (s : List Nat) :
    Except String (List (String × Index) × List Nat) :=
  match readStringList s with
  | none => .error (streamError "primitive name")
  | some (ns, r) =>
      .ok (ns.enum.foldl (fun m p => insertMap m p.2 (p.1 : Int)) [], r)

/-- The instruction loop of `LoadCodeSection` (lines 781-787): read and
decode `num_instructions` records; a short read is section
`code/instruction`, an unknown opcode aborts inside
`DeserializeInstruction`. -/
def LoadInstructions (k : Nat) (s : List Nat) :
    Except String (List Instruction × List Nat) :=
  match k with
  | 0 => .ok ([], s)
  | k + 1 =>
      match readInstrRecord s with
      | none => .error (streamError "code/instruction")
      | some (r, s1) =>
          match DeserializeInstruction r with
          | none => .error "Invalid opcode"
          | some i =>
              match LoadInstructions k s1 with
              | .error e => .error e
              | .ok (is, s2) => .ok (i :: is, s2)

/-- The function loop of `LoadCodeSection` (lines 775-796): read a function
header (section `code/function`), its instructions, then resolve the name in
the global map — `CHECK(it != global_map.end())` aborts on an unknown name,
`CHECK_LE(it->second, global_map.size())` on an oversized index — and place
the function at `functions[it->second]` (an index equal to the table length
slips past the `<=` check into an out-of-bounds write). -/
def LoadFunctions (gm : List (String × Index)) (k : Nat) (s : List Nat)
    (fns : List VMFunction) : Except String (List VMFunction × List Nat) :=
  match k with
  | 0 => .ok (fns, s)
  | k + 1 =>
      match readFuncRecord s with
      | none => .error (streamError "code/function")
      | some (r, s1) =>
          match LoadInstructions r.num_instructions s1 with
          | .error e => .error e
          | .ok (instrs, s2) =>
              match lookupMap gm r.name with
              | none => .error "Check failed: it != this->global_map.end()"
              | some gidx =>
                  if (gm.length : Int) < gidx then
                    .error "Check failed: it->second <= this->global_map.size()"
                  else if gidx.toNat < fns.length then
                    LoadFunctions gm k s2
                      (fns.set gidx.toNat ⟨r.name, r.params, instrs, r.register_file_size⟩)
                  else .error "undefined behavior: write outside the function table"

/-- `Executable::LoadCodeSection` (lines 768-797): `u64` function count
(section `code`), a default-initialized function table, then the function
loop. -/
def LoadCodeSection (gm : List (String × Index)) (s : List Nat) :
    Except String (List VMFunction × List Nat) :=
  match readU64 s with
  | none => .error (streamError "code")
  | some (n, r) => LoadFunctions gm n r (List.replicate n default)

/-- `Executable::Load` (lines 479-501): header, global, constant, primitive
and code sections, in order, producing the executable. -/
def Executable.Load (dv : List Nat → Option (V × List Nat)) (code : List Nat) :
    Except String (Executable V) :=
  match LoadHeader code with
  | .error e => .error e
  | .ok s1 =>
      match LoadGlobalSection s1 with
      | .error e => .error e
      | .ok (gm, s2) =>
          match LoadConstantSection dv s2 with
          | .error e => .error e
          | .ok (cs, s3) =>
              match LoadPrimitiveOpNames s3 with
              | .error e => .error e
              | .ok (pm, s4) =>
                  match LoadCodeSection gm s4 with
                  | .error e => .error e
                  | .ok (fns, _) => .ok ⟨cs, gm, pm, fns⟩

/-- Structural skip over `k` instruction records (no decoding); used to state
what names the code section of a byte stream declares. -/
def SkipInstructions (k : Nat) (s : List Nat) : Option (List Nat) :=
  match k with
  | 0 => some s
  | k + 1 =>
      match readInstrRecord s with
      | none => none
      | some (_, s1) => SkipInstructions k s1

/-- Structural parse of `k` function records, collecting the declared
function names. -/
def CodeHeadersAux (k : Nat) (s : List Nat) : Option (List String × List Nat) :=
  match k with
  | 0 => some ([], s)
  | k + 1 =>
      match readFuncRecord s with
      | none => none
      | some (r, s1) =>
          match SkipInstructions r.num_instructions s1 with
          | none => none
          | some s2 =>
              match CodeHeadersAux k s2 with
              | none => none
              | some (ns, s3) => some (r.name :: ns, s3)

/-- The function names a byte stream's code section declares. -/
def CodeSectionNames (s : List Nat) : Option (List String) :=
  match readU64 s with
  | none => none
  | some (n, r) => (CodeHeadersAux n r).map Prod.fst

/-- C5: `Load` rejects a stream whose leading `u64` differs from
`kMetaVMBytecodeMagic` with the `header`-section error, and a stream with the
correct magic but a version string different from the producer's with the
`version`-section error. -/
theorem C5_header_version_rejection :
    (∀ (V : Type) (dv : List Nat → Option (V × List Nat)) (code : List Nat)
        (m : Nat) (r : List Nat),
      readU64 code = some (m, r) → m ≠ kMetaVMBytecodeMagic →
      Executable.Load dv code = .error (streamError "header")) ∧
    (∀ (V : Type) (dv : List Nat → Option (V × List Nat)) (code : List Nat)
        (r : List Nat) (v : String) (r2 : List Nat),
      readU64 code = some (kMetaVMBytecodeMagic, r) →
      readString r = some (v, r2) → v ≠ tvmVersion →
      Executable.Load dv code = .error (streamError "version")) := by
  constructor
  · intro V dv code m r h1 h2
    unfold Executable.Load LoadHeader
    rw [h1]
    simp [h2]
  · intro V dv code r v r2 h1 h2 h3
    unfold Executable.Load LoadHeader
    rw [h1]
    simp [h2, h3]

/-- A trivial concrete instance of the external value codec, for witnesses. -/
def dvUnit : List Nat → Option (Unit × List Nat) := fun _ => none

/-- Witness bytes for C5: a stream led by a wrong magic. -/
def c5BadMagic : List Nat := encodeU64 (kMetaVMBytecodeMagic + 1)

/-- Witness bytes for C5: correct magic, wrong version string. -/
def c5BadVersion : List Nat := encodeU64 kMetaVMBytecodeMagic ++ encodeString "bogus"

theorem C5_header_version_rejection_witness :
    Executable.Load dvUnit c5BadMagic = .error (streamError "header") ∧
      Executable.Load dvUnit c5BadVersion = .error (streamError "version") := by
  constructor
  · exact C5_header_version_rejection.1 Unit dvUnit c5BadMagic
      (kMetaVMBytecodeMagic + 1) [] (by rfl) (by decide)
  · exact C5_header_version_rejection.2 Unit dvUnit c5BadVersion
      (encodeString "bogus") "bogus" [] (by rfl) (by rfl) (by decide)

theorem loadInstructions_skip (k : Nat) :
    ∀ (s r : List Nat) (is : List Instruction),
      LoadInstructions k s = .ok (is, r) → SkipInstructions k s = some r := by
  induction k with
  | zero =>
      intro s r is h
      simp only [LoadInstructions] at h
      cases h
      rfl
  | succ k ih =>
      intro s r is h
      simp only [LoadInstructions] at h
      cases h1 : readInstrRecord s with
      | none => simp only [h1] at h; exact Except.noConfusion h
      | some p =>
          simp only [h1] at h
          simp only [SkipInstructions, h1]
          cases h2 : DeserializeInstruction p.1 with
          | none => simp only [h2] at h; exact Except.noConfusion h
          | some i =>
              simp only [h2] at h
              cases h3 : LoadInstructions k p.2 with
              | error e => simp only [h3] at h; exact Except.noConfusion h
              | ok q =>
                  simp only [h3, Except.ok.injEq, Prod.mk.injEq] at h
                  rw [← h.2]
                  exact ih p.2 q.2 q.1 (by rw [h3])

theorem loadFunctions_unknown_name (k : Nat) :
    ∀ (s : List Nat) (names : List String) (r : List Nat)
      (gm : List (String × Index)) (fns : List VMFunction),
      CodeHeadersAux k s = some (names, r) →
      (∃ nm ∈ names, lookupMap gm nm = none) →
      ∃ msg, LoadFunctions gm k s fns = .error msg := by
  induction k with
  | zero =>
      intro s names r gm fns h hex
      simp only [CodeHeadersAux, Option.some.injEq, Prod.mk.injEq] at h
      rw [← h.1] at hex
      simp at hex
  | succ k ih =>
      intro s names r gm fns h hex
      simp only [CodeHeadersAux] at h
      simp only [LoadFunctions]
      cases h1 : readFuncRecord s with
      | none => simp only [h1] at h; exact Option.noConfusion h
      | some p =>
          simp only [h1] at h
          simp only [h1]
          cases h2 : SkipInstructions p.1.num_instructions p.2 with
          | none => simp only [h2] at h; exact Option.noConfusion h
          | some s2 =>
              simp only [h2] at h
              cases h3 : CodeHeadersAux k s2 with
              | none => simp only [h3] at h; exact Option.noConfusion h
              | some q =>
                  simp only [h3, Option.some.injEq, Prod.mk.injEq] at h
                  cases h4 : LoadInstructions p.1.num_instructions p.2 with
                  | error e => exact ⟨e, by simp only [h4]⟩
                  | ok ir =>
                      simp only [h4]
                      have hs2 : ir.2 = s2 := by
                        have hskip := loadInstructions_skip p.1.num_instructions p.2 ir.2 ir.1
                          (by rw [h4])
                        rw [h2] at hskip
                        exact (Option.some_inj.mp hskip).symm
                      cases h5 : lookupMap gm p.1.name with
                      | none => simp only [h5]; exact ⟨_, rfl⟩
                      | some gidx =>
                          simp only [h5]
                          rw [← h.1] at hex
                          obtain ⟨nm, hmem, hnone⟩ := hex
                          rcases List.mem_cons.mp hmem with hnm | hnm
                          · rw [hnm] at hnone
                            rw [h5] at hnone
                            exact Option.noConfusion hnone
                          · by_cases h6 : (gm.length : Int) < gidx
                            · exact ⟨_, by rw [if_pos h6]⟩
                            · rw [if_neg h6]
                              by_cases h7 : gidx.toNat < fns.length
                              · rw [if_pos h7, hs2]
                                exact ih s2 q.1 q.2 gm _ (by rw [h3]) ⟨nm, hnm, hnone⟩
                              · exact ⟨_, by rw [if_neg h7]⟩

/-- C6: a byte stream that parses through the header, global, constant and
primitive sections, and whose code section declares a function name absent
from the global section, fails to load (no executable is produced). -/
theorem C6_unknown_code_name_fails_load :
    ∀ (V : Type) (dv : List Nat → Option (V × List Nat)) (code s1 : List Nat)
      (gm : List (String × Index)) (s2 : List Nat) (cs : List V) (s3 : List Nat)
      (pm : List (String × Index)) (s4 : List Nat) (names : List String),
      LoadHeader code = .ok s1 →
      LoadGlobalSection s1 = .ok (gm, s2) →
      LoadConstantSection dv s2 = .ok (cs, s3) →
      LoadPrimitiveOpNames s3 = .ok (pm, s4) →
      CodeSectionNames s4 = some names →
      (∃ nm ∈ names, lookupMap gm nm = none) →
      ∃ msg, Executable.Load dv code = .error msg := by
  intro V dv code s1 gm s2 cs s3 pm s4 names h1 h2 h3 h4 h5 hex
  unfold Executable.Load
  simp only [h1, h2, h3, h4]
  unfold LoadCodeSection
  unfold CodeSectionNames at h5
  cases h6 : readU64 s4 with
  | none =>
      simp only [h6] at h5
      exact Option.noConfusion h5
  | some p =>
      simp only [h6] at h5
      simp only [h6]
      cases h7 : CodeHeadersAux p.1 p.2 with
      | none =>
          simp only [h7, Option.map_none'] at h5
          exact Option.noConfusion h5
      | some q =>
          simp only [h7, Option.map_some', Option.some.injEq] at h5
          obtain ⟨msg, hmsg⟩ := loadFunctions_unknown_name p.1 p.2 names q.2 gm
            (List.replicate p.1 default) (by rw [h7, ← h5]) hex
          exact ⟨msg, by simp only [hmsg]⟩

/-- Witness code section for C6: one function named `ghost`, zero
instructions. -/
def c6Code : List Nat := encodeU64 1 ++ VMFunctionSerializer.save ⟨"ghost", 0, 0, []⟩

/-- Witness stream suffix after the header. -/
def c6Rest1 : List Nat := encodeStringList [] ++ encodeU64 0 ++ encodeStringList [] ++ c6Code

/-- Witness stream suffix after the global section. -/
def c6Rest2 : List Nat := encodeU64 0 ++ encodeStringList [] ++ c6Code

/-- Witness stream suffix after the constant section. -/
def c6Rest3 : List Nat := encodeStringList [] ++ c6Code

/-- Witness stream for C6: valid header, empty global/constant/primitive
sections, and a code section naming the unknown function `ghost`. -/
def c6Bytes : List Nat := SaveHeader ++ c6Rest1

theorem C6_unknown_code_name_fails_load_witness :
    ∃ msg, Executable.Load dvUnit c6Bytes = .error msg :=
  C6_unknown_code_name_fails_load Unit dvUnit c6Bytes c6Rest1 [] c6Rest2 [] c6Rest3 []
    c6Code ["ghost"] (by rfl) (by rfl) (by rfl) (by rfl) (by rfl)
    ⟨"ghost", by simp, by rfl⟩

/-- Strict version of the global-section comparator. -/
def bySndLT (a b : String × Index) : Prop := a.2 < b.2

instance : IsAntisymm (String × Index) bySndLT :=
  ⟨fun a b h1 h2 => absurd (lt_trans h1 h2) (lt_irrefl a.2)⟩

theorem sortGlobals_sorted (l : List (String × Index)) :
    List.Sorted bySnd (List.insertionSort bySnd l) :=
  List.sorted_insertionSort bySnd l

theorem sortGlobals_sorted_strict (l : List (String × Index))
    (hd : (l.map Prod.snd).Nodup) :
    List.Sorted bySndLT (List.insertionSort bySnd l) := by
  have hs := List.sorted_insertionSort bySnd l
  have hd2 : ((List.insertionSort bySnd l).map Prod.snd).Nodup :=
    (((List.perm_insertionSort bySnd l).map Prod.snd).nodup_iff).mpr hd
  have hpne : List.Pairwise (fun a b : String × Index => a.2 ≠ b.2)
      (List.insertionSort bySnd l) := List.pairwise_map.mp hd2
  exact (hs.and hpne).imp (fun hab => lt_of_le_of_ne hab.1 hab.2)

theorem sortGlobals_perm_eq (l1 l2 : List (String × Index)) (hp : l1.Perm l2)
    (hd : (l1.map Prod.snd).Nodup) :
    List.insertionSort bySnd l1 = List.insertionSort bySnd l2 := by
  have hd2 : (l2.map Prod.snd).Nodup := ((hp.map Prod.snd).nodup_iff).mp hd
  exact List.eq_of_perm_of_sorted
    ((List.perm_insertionSort bySnd l1).trans
      (hp.trans (List.perm_insertionSort bySnd l2).symm))
    (sortGlobals_sorted_strict l1 hd) (sortGlobals_sorted_strict l2 hd2)

theorem length_setSlot (v : List String) (i : Index) (nm : String) :
    (setSlot v i nm).length = max v.length (i.toNat + 1) := by
  unfold setSlot
  by_cases h : v.length ≤ i.toNat
  · simp only [if_pos h, List.length_set, List.length_append, List.length_replicate]
    omega
  · simp only [if_neg h, List.length_set]
    omega

theorem getElem?_setSlot (v : List String) (i : Index) (nm : String) (j : Nat) :
    (setSlot v i nm)[j]? =
      if j = i.toNat then some nm
      else if j < v.length then v[j]?
      else if j < i.toNat + 1 then some "" else none := by
  unfold setSlot
  by_cases h : v.length ≤ i.toNat
  · simp only [if_pos h, List.getElem?_set, List.getElem?_append,
      List.getElem?_replicate, List.length_append, List.length_replicate]
    split_ifs <;>
      first
        | rfl
        | omega
        | (exfalso; omega)
        | (exact List.getElem?_eq_none (by omega))
        | (exact (List.getElem?_eq_none (by omega)).symm)
  · simp only [if_neg h, List.getElem?_set]
    split_ifs <;>
      first
        | rfl
        | omega
        | (exfalso; omega)
        | (exact List.getElem?_eq_none (by omega))
        | (exact (List.getElem?_eq_none (by omega)).symm)

theorem getD_setSlot (v : List String) (i : Index) (nm : String) (j : Nat) :
    (setSlot v i nm).getD j "" = if j = i.toNat then nm else v.getD j "" := by
  rw [List.getD_eq_getElem?_getD, List.getD_eq_getElem?_getD, getElem?_setSlot]
  split_ifs <;>
    first
      | rfl
      | (rw [List.getElem?_eq_none (by omega)]; try rfl)

theorem setSlot_comm (v : List String) (a b : String × Index)
    (ha : 0 ≤ a.2) (hb : 0 ≤ b.2) (hne : a.2 ≠ b.2) :
    setSlot (setSlot v a.2 a.1) b.2 b.1 = setSlot (setSlot v b.2 b.1) a.2 a.1 := by
  have ha' : (0 : Int) ≤ a.2 := ha
  have hb' : (0 : Int) ≤ b.2 := hb
  have hnat : a.2.toNat ≠ b.2.toNat := by
    intro hh
    refine hne ?_
    calc (a.2 : Int) = (a.2.toNat : Int) := (Int.toNat_of_nonneg ha').symm
      _ = (b.2.toNat : Int) := by rw [hh]
      _ = b.2 := Int.toNat_of_nonneg hb'
  apply List.ext_getElem?
  intro n
  simp only [getElem?_setSlot, length_setSlot]
  split_ifs <;>
    first
      | rfl
      | omega
      | (exfalso; omega)
      | (exact List.getElem?_eq_none (by omega))
      | (exact (List.getElem?_eq_none (by omega)).symm)

theorem primSlots_perm (l1 l2 : List (String × Index)) (hp : l1.Perm l2)
    (hd : (l1.map Prod.snd).Nodup) (hnn : ∀ p ∈ l1, 0 ≤ p.2) :
    primSlots l1 = primSlots l2 := by
  unfold primSlots
  refine hp.foldl_eq' ?_ []
  intro x hx y hy z
  by_cases hxy : x = y
  · rw [hxy]
  · have hne : x.2 ≠ y.2 := fun hh => hxy (List.inj_on_of_nodup_map hd hx hy hh)
    exact setSlot_comm z x y (hnn x hx) (hnn y hy) hne

theorem foldl_setSlot_getD_of_not_mem (l : List (String × Index)) :
    ∀ (acc : List String) (j : Nat),
      (∀ p ∈ l, p.2.toNat ≠ j) →
      (l.foldl (fun v p => setSlot v p.2 p.1) acc).getD j "" = acc.getD j "" := by
  induction l with
  | nil => intro acc j _; rfl
  | cons q rest ih =>
      intro acc j h
      simp only [List.foldl_cons]
      rw [ih _ j (fun p hp => h p (List.mem_cons_of_mem q hp))]
      rw [getD_setSlot,
        if_neg (fun hh => h q (List.mem_cons_self q rest) hh.symm)]

theorem foldl_setSlot_getD_of_mem (l : List (String × Index)) :
    ∀ (acc : List String) (p : String × Index), p ∈ l →
      (∀ x ∈ l, ∀ y ∈ l, x ≠ y → x.2.toNat ≠ y.2.toNat) →
      (l.foldl (fun v q => setSlot v q.2 q.1) acc).getD p.2.toNat "" = p.1 := by
  induction l with
  | nil => intro acc p hp _; exact absurd hp (List.not_mem_nil p)
  | cons q rest ih =>
      intro acc p hp hdist
      simp only [List.foldl_cons]
      rcases List.mem_cons.mp hp with h | h
      · by_cases hq : q ∈ rest
        · rw [h]
          exact ih _ q hq (fun x hx y hy hxy =>
            hdist x (List.mem_cons_of_mem q hx) y (List.mem_cons_of_mem q hy) hxy)
        · rw [h]
          rw [foldl_setSlot_getD_of_not_mem rest _ _ (fun p' hp' =>
            hdist p' (List.mem_cons_of_mem q hp') q (List.mem_cons_self q rest)
              (fun he => hq (he ▸ hp')))]
          rw [getD_setSlot, if_pos rfl]
      · exact ih _ p h (fun x hx y hy hxy =>
          hdist x (List.mem_cons_of_mem q hx) y (List.mem_cons_of_mem q hy) hxy)

/-- C7: `Save` is deterministic.  Two executables with equal constants, equal
(as multisets) global and primitive directories, and equal function tables
produce byte-identical buffers; moreover the global section lists the names
ascending by `Index` and the primitive section places each name at its
packed-index slot.  The directory hypotheses (`Nodup` indices, nonnegative
packed indices) are the data-model invariants of well-formed executables
(spec §3). -/
theorem C7_save_deterministic :
    (∀ (V : Type) (sv : V → List Nat) (e1 e2 : Executable V),
      e1.constants = e2.constants →
      e1.global_map.Perm e2.global_map →
      e1.primitive_map.Perm e2.primitive_map →
      e1.functions = e2.functions →
      (e1.global_map.map Prod.snd).Nodup →
      (e1.primitive_map.map Prod.snd).Nodup →
      (∀ p ∈ e1.primitive_map, 0 ≤ p.2) →
      e1.Save sv = e2.Save sv) ∧
    (∀ (V : Type) (e : Executable V),
      List.Sorted bySnd (List.insertionSort bySnd e.global_map)) ∧
    (∀ (V : Type) (e : Executable V),
      (e.primitive_map.map Prod.snd).Nodup →
      (∀ p ∈ e.primitive_map, 0 ≤ p.2) →
      ∀ p ∈ e.primitive_map, (primSlots e.primitive_map).getD p.2.toNat "" = p.1) := by
  refine ⟨?_, ?_, ?_⟩
  · intro V sv e1 e2 hc hg hpm hf hgd hpd hpn
    unfold Executable.Save Executable.SaveGlobalSection Executable.SaveConstantSection
      Executable.SavePrimitiveOpNames Executable.SaveCodeSection
    rw [hc, hf, sortGlobals_perm_eq _ _ hg hgd, primSlots_perm _ _ hpm hpd hpn]
  · intro V e
    exact sortGlobals_sorted e.global_map
  · intro V e hpd hpn p hp
    have hdist : ∀ x ∈ e.primitive_map, ∀ y ∈ e.primitive_map,
        x ≠ y → x.2.toNat ≠ y.2.toNat := by
      intro x hx y hy hxy hh
      refine hxy (List.inj_on_of_nodup_map hpd hx hy ?_)
      have hx' : (0 : Int) ≤ x.2 := hpn x hx
      have hy' : (0 : Int) ≤ y.2 := hpn y hy
      calc (x.2 : Int) = (x.2.toNat : Int) := (Int.toNat_of_nonneg hx').symm
        _ = (y.2.toNat : Int) := by rw [hh]
        _ = y.2 := Int.toNat_of_nonneg hy'
    exact foldl_setSlot_getD_of_mem e.primitive_map [] p hp hdist

/-- Fixed executable for the C7 witness. -/
def c7Left : Executable Unit :=
  ⟨[], [("f", 0), ("g", 1)], [("p", 0), ("q", 1)], []⟩

/-- The same executable with both directories listed in the opposite
order. -/
def c7Right : Executable Unit :=
  ⟨[], [("g", 1), ("f", 0)], [("q", 1), ("p", 0)], []⟩

/-- The trivial constant serializer for the C7 witness. -/
def svUnit : Unit → List Nat := fun _ => []

theorem C7_save_deterministic_witness :
    c7Left.Save svUnit = c7Right.Save svUnit ∧
      List.Sorted bySnd (List.insertionSort bySnd c7Left.global_map) ∧
      (primSlots c7Left.primitive_map).getD 1 "" = "q" := by
  refine ⟨?_, ?_, ?_⟩
  · exact C7_save_deterministic.1 Unit svUnit c7Left c7Right rfl (by decide) (by decide)
      rfl (by decide) (by decide) (by decide)
  · exact C7_save_deterministic.2.1 Unit c7Left
  · exact C7_save_deterministic.2.2 Unit c7Left (by decide) (by decide) ("q", 1)
      (by decide)

/-- `Executable::GetFunctionParameterName` (lines 79-91).  The unknown-name
and out-of-range branches return `""` (modelled `some ""`); the final
`return func.params[index]` is a raw `std::vector` access, so `none` marks
the out-of-bounds read it performs when `index` equals the parameter count
(the guard uses strict `>`), and likewise a global index outside the
function table. -/
def Executable.GetFunctionParameterName (e : Executable V) (func_name : String)
    (index : Nat) : Option String :=
  match lookupMap e.global_map func_name with
  | none => some ""
  | some gidx =>
      match e.functions[gidx.toNat]? with
      | none => none
      | some func =>
          if func.params.length < index then some ""
          else func.params[index]?

/-- C8: for any executable and any function found in its directory, querying
the parameter name at `index = |params|` slips past the `index > size` guard
and performs the out-of-bounds `params[index]` access (modelled `none`) —
it does not return the claimed `""`. -/
theorem C8_param_index_at_size_is_oob :
    ∀ (V : Type) (e : Executable V) (nm : String) (g : Index) (f : VMFunction),
      lookupMap e.global_map nm = some g →
      e.functions[g.toNat]? = some f →
      e.GetFunctionParameterName nm f.params.length = none := by
  intro V e nm g f h1 h2
  unfold Executable.GetFunctionParameterName
  simp only [h1, h2, lt_irrefl, if_false]
  exact List.getElem?_eq_none (le_refl _)

/-- Fixed executable for the C8 witness: one function `f` with the single
parameter `x`. -/
def c8Exec : Executable Unit := ⟨[], [("f", 0)], [], [⟨"f", ["x"], [], 2⟩]⟩

theorem C8_param_index_at_size_is_oob_witness :
    c8Exec.GetFunctionParameterName "f" 1 = none :=
  C8_param_index_at_size_is_oob Unit c8Exec "f" 0 ⟨"f", ["x"], [], 2⟩ (by rfl) (by rfl)

/-! ### Disassembler (`GetBytecode`)

`std::ostringstream` keeps a put position that `seekp` can move backwards,
after which insertions overwrite in place; `OSS` models exactly that.  Each
C++ insertion chain `oss << a << b << ...` into an already-end-positioned
stream appears as one `ossWrite` of the concatenated rendering; the
`seekp(-2, end)` rewind of the function-header line and the two characters
written after it are kept separate, as their overwriting behavior is the
point. -/

/-- An output string stream: buffer and put position. -/
structure OSS where
  data : List Char
  pos : Nat

/-- Insert characters at the put position, overwriting and extending as
`std::ostringstream` does. -/
def ossWrite (o : OSS) (s : List Char) : OSS :=
  ⟨o.data.take o.pos ++ s ++ o.data.drop (o.pos + s.length), o.pos + s.length⟩

/-- `seekp(off, std::ios_base::end)`. -/
def ossSeekEnd (o : OSS) (off : Int) : OSS :=
  ⟨o.data, ((o.data.length : Int) + off).toNat⟩

/-- `std::setw(2)`: right-align the next item in a field of width 2. -/
def padw2 (s : String) : String := String.mk (List.replicate (2 - s.length) ' ') ++ s

/-- Modelled from the spec: the pretty-printer `operator<<(std::ostream&,
const Instruction&)` lives in `vm.cc`, outside the sources at hand; §4.4
renders each instruction as a single line of text, here its mnemonic. -/
def instrText : Instruction → String
  | .move .. => "move"
  | .ret .. => "ret"
  | .fatal => "fatal"
  | .invokePacked .. => "invoke_packed"
  | .allocTensor .. => "alloc_tensor"
  | .allocTensorReg .. => "alloc_tensor_reg"
  | .allocStorage .. => "alloc_storage"
  | .free .. => "free"
  | .allocTuple .. => "alloc_tuple"
  | .allocClosure .. => "alloc_closure"
  | .setShape .. => "set_shape"
  | .ifOp .. => "if"
  | .invokeFunc .. => "invoke_func"
  | .invokeClosure .. => "invoke_closure"
  | .loadConst .. => "load_const"
  | .loadConsti .. => "load_consti"
  | .getField .. => "get_field"
  | .goto .. => "goto"
  | .invokeJit .. => "invoke_jit"
  | .inferType .. => "infer_type"
  | .cudaSetStream .. => "cuda_set_stream"
  | .cudaAddEvent .. => "cuda_add_event"
  | .cudaWaitEvent .. => "cuda_wait_event"
  | .cudaStreamBarrier => "cuda_stream_barrier"

/-- The function-header line of `GetBytecode` (lines 98-104): print
`VM Function[i]: name(` and every parameter followed by `", "`, then rewind
the put position by two and write `)` and the newline — overwriting the two
characters before the old end. -/
def writeHeaderLine (o : OSS) (i : Nat) (f : VMFunction) : OSS :=
  ossWrite
    (ossSeekEnd
      (f.params.foldl (fun acc p => ossWrite acc (p ++ ", ").data)
        (ossWrite o ("VM Function[" ++ toString i ++ "]: " ++ f.name ++ "(").data))
      (-2))
    [')', '\n']

/-- One instruction line of `GetBytecode` (lines 111-120): the width-2 index,
the opcode, each serialized field, and the pretty-printed text; a newline is
appended unless the text already ended with one. -/
def ossEndl (o : OSS) : OSS :=
  if o.data.getLast? ≠ some '\n' then ossWrite o ['\n'] else o

/-- One instruction line of `GetBytecode` (lines 111-120), continued. -/
def writeInstrLine (o : OSS) (idx : Nat) (ins : Instruction) : OSS :=
  ossEndl
    (ossWrite
      ((SerializeInstruction ins).fields.foldl
        (fun acc f => ossWrite acc (toString f ++ " ").data)
        (ossWrite o
          (padw2 (toString idx) ++ ": " ++
            toString (SerializeInstruction ins).opcode ++ " ").data))
      ("  # " ++ instrText ins).data)

/-- One function block of `GetBytecode` (lines 96-121): header line, the two
`#` comment lines, the `opcode, fields` caption, the instruction lines, and
the blank separator. -/
def writeFunction (o : OSS) (i : Nat) (f : VMFunction) : OSS :=
  ossWrite
    (f.instructions.enum.foldl (fun acc p => writeInstrLine acc p.1 p.2)
      (ossWrite
        (ossWrite
          (ossWrite (writeHeaderLine o i f)
            (("# reg file size = " ++ toString f.register_file_size).data ++ ['\n']))
          (("# instruction count = " ++ toString f.instructions.length).data ++ ['\n']))
        ("opcode, fields # inst(text):".data ++ ['\n'])))
    ['\n']

/-- `Executable::GetBytecode` (lines 93-125). -/
def Executable.GetBytecode (e : Executable V) : String :=
  String.mk (e.functions.enum.foldl (fun o p => writeFunction o p.1 p.2) ⟨[], 0⟩).data

/-- The characters of the function-header line (newline excluded): the
printed prefix and parameter list with its last two characters replaced by
the closing parenthesis. -/
def headerPre (i : Nat) (f : VMFunction) : List Char :=
  ("VM Function[" ++ toString i ++ "]: " ++ f.name ++ "(").data ++
    (f.params.map (fun p => (p ++ ", ").data)).flatten

/-- The characters of the function-header line (newline excluded), after the
rewind replaced the last two printed characters by the parenthesis. -/
def headerChars (i : Nat) (f : VMFunction) : List Char :=
  (headerPre i f).take ((headerPre i f).length - 2) ++ [')']

/-- The characters of one instruction line (newline excluded). -/
def instrLineChars (idx : Nat) (ins : Instruction) : List Char :=
  (padw2 (toString idx) ++ ": " ++ toString (SerializeInstruction ins).opcode ++ " ").data ++
    ((SerializeInstruction ins).fields.map (fun f => (toString f ++ " ").data)).flatten ++
    ("  # " ++ instrText ins).data

/-- The lines of one function block (newlines and the blank separator
excluded). -/
def blockLines (i : Nat) (f : VMFunction) : List (List Char) :=
  [headerChars i f,
   ("# reg file size = " ++ toString f.register_file_size).data,
   ("# instruction count = " ++ toString f.instructions.length).data,
   "opcode, fields # inst(text):".data] ++
  f.instructions.enum.map (fun p => instrLineChars p.1 p.2)

/-- Split a character buffer at every newline. -/
def splitLines : List Char → List (List Char)
  | [] => [[]]
  | c :: cs =>
      if c = '\n' then [] :: splitLines cs
      else
        match splitLines cs with
        | [] => [[c]]
        | l :: ls => (c :: l) :: ls

theorem digitChar_ne_newline (d : Nat) : Nat.digitChar d ≠ '\n' := by
  match d with
  | 0 | 1 | 2 | 3 | 4 | 5 | 6 | 7 | 8 | 9 | 10 | 11 | 12 | 13 | 14 | 15 => decide
  | n + 16 =>
      have h : ∀ k, k < 16 → n + 16 ≠ k := by omega
      simp only [Nat.digitChar, if_neg (h 0 (by decide)), if_neg (h 1 (by decide)),
        if_neg (h 2 (by decide)), if_neg (h 3 (by decide)), if_neg (h 4 (by decide)),
        if_neg (h 5 (by decide)), if_neg (h 6 (by decide)), if_neg (h 7 (by decide)),
        if_neg (h 8 (by decide)), if_neg (h 9 (by decide)), if_neg (h 10 (by decide)),
        if_neg (h 11 (by decide)), if_neg (h 12 (by decide)), if_neg (h 13 (by decide)),
        if_neg (h 14 (by decide)), if_neg (h 15 (by decide))]
      decide

theorem toDigitsCore_no_newline (b : Nat) :
    ∀ (fuel n : Nat) (ds : List Char), (∀ c ∈ ds, c ≠ '\n') →
      ∀ c ∈ Nat.toDigitsCore b fuel n ds, c ≠ '\n' := by
  intro fuel
  induction fuel with
  | zero => intro n ds h c hc; exact h c hc
  | succ fuel ih =>
      intro n ds h c hc
      simp only [Nat.toDigitsCore] at hc
      split at hc
      · rcases List.mem_cons.mp hc with hc | hc
        · rw [hc]; exact digitChar_ne_newline _
        · exact h c hc
      · refine ih _ _ ?_ c hc
        intro c' hc'
        rcases List.mem_cons.mp hc' with hc' | hc'
        · rw [hc']; exact digitChar_ne_newline _
        · exact h c' hc'

theorem natRepr_no_newline (n : Nat) : '\n' ∉ (Nat.repr n).data := by
  intro hmem
  exact toDigitsCore_no_newline 10 (n + 1) n [] (by intro c hc; cases hc) '\n' hmem rfl

theorem intRepr_no_newline (i : Int) : '\n' ∉ (Int.repr i).data := by
  match i with
  | Int.ofNat m => exact natRepr_no_newline m
  | Int.negSucc m =>
      intro hmem
      rw [Int.repr, String.data_append] at hmem
      rcases List.mem_append.mp hmem with hm | hm
      · exact absurd hm (by decide)
      · exact natRepr_no_newline (m + 1) hm

theorem no_newline_append {a b : List Char} (ha : '\n' ∉ a) (hb : '\n' ∉ b) :
    '\n' ∉ a ++ b := by
  intro hm
  rcases List.mem_append.mp hm with hm | hm
  · exact ha hm
  · exact hb hm

theorem no_newline_flatten {L : List (List Char)} (h : ∀ l ∈ L, '\n' ∉ l) :
    '\n' ∉ L.flatten := by
  intro hm
  obtain ⟨l, hl, hml⟩ := List.mem_flatten.mp hm
  exact h l hl hml

theorem ossWrite_append (o : OSS) (s : List Char) (h : o.pos = o.data.length) :
    ossWrite o s = ⟨o.data ++ s, (o.data ++ s).length⟩ := by
  unfold ossWrite
  rw [h, List.take_length, List.drop_eq_nil_of_le (by omega), List.append_nil,
    List.length_append]

theorem ossWrite_foldl {α : Type} (g : α → List Char) :
    ∀ (l : List α) (o : OSS), o.pos = o.data.length →
      l.foldl (fun acc x => ossWrite acc (g x)) o =
        ⟨o.data ++ (l.map g).flatten, (o.data ++ (l.map g).flatten).length⟩ := by
  intro l
  induction l with
  | nil =>
      intro o h
      simp only [List.foldl_nil, List.map_nil, List.flatten_nil, List.append_nil]
      cases o
      simp_all
  | cons x xs ih =>
      intro o h
      simp only [List.foldl_cons, List.map_cons, List.flatten_cons]
      rw [ossWrite_append o (g x) h]
      rw [ih ⟨o.data ++ g x, (o.data ++ g x).length⟩ rfl]
      simp [List.append_assoc]

theorem ossWrite_seek2 (B : List Char) (p : Nat) (hB : 2 ≤ B.length) :
    ossWrite (ossSeekEnd ⟨B, p⟩ (-2)) [')', '\n'] =
      ⟨B.take (B.length - 2) ++ [')', '\n'], B.length⟩ := by
  unfold ossWrite ossSeekEnd
  have h1 : (((B.length : Nat) : Int) + (-2)).toNat = B.length - 2 := by omega
  simp only [h1]
  rw [show B.length - 2 + [')', '\n'].length = B.length by simp; omega]
  rw [List.drop_length, List.append_nil]

theorem writeHeaderLine_eq (o : OSS) (i : Nat) (f : VMFunction)
    (h : o.pos = o.data.length) :
    writeHeaderLine o i f =
      ⟨o.data ++ (headerChars i f ++ ['\n']),
       (o.data ++ (headerChars i f ++ ['\n'])).length⟩ := by
  unfold writeHeaderLine headerChars
  rw [ossWrite_append o _ h]
  rw [ossWrite_foldl (fun p => (p ++ ", ").data) f.params _ rfl]
  have hpre12 : 12 ≤ (("VM Function[" ++ toString i ++ "]: " ++ f.name ++ "(").data).length := by
    simp only [String.data_append, List.length_append, List.length_cons, List.length_nil]
    omega
  have hpre2 : 2 ≤ (headerPre i f).length := by
    rw [headerPre, List.length_append]
    omega
  rw [List.append_assoc, ← headerPre]
  rw [ossWrite_seek2 (o.data ++ headerPre i f) _ (by rw [List.length_append]; omega)]
  have htake : (o.data ++ headerPre i f).take ((o.data ++ headerPre i f).length - 2) =
      o.data ++ (headerPre i f).take ((headerPre i f).length - 2) := by
    rw [List.length_append, show o.data.length + (headerPre i f).length - 2 =
      o.data.length + ((headerPre i f).length - 2) by omega, List.take_append]
  rw [htake, List.append_assoc]
  have hchars : (headerPre i f).take ((headerPre i f).length - 2) ++ [')', '\n'] =
      ((headerPre i f).take ((headerPre i f).length - 2) ++ [')']) ++ ['\n'] := by
    simp
  rw [hchars]
  rw [List.length_append, List.length_append, List.length_append, List.length_append,
    List.length_take]
  simp only [List.length_cons, List.length_nil]
  congr 1
  omega

theorem instrTail_ne_nil (ins : Instruction) :
    ("  # " ++ instrText ins).data ≠ [] := by
  cases ins <;> simp only [instrText] <;> decide

theorem instrTail_getLast (ins : Instruction) :
    (("  # " ++ instrText ins).data).getLast? ≠ some '\n' := by
  cases ins <;> simp only [instrText] <;> decide

theorem writeInstrLine_eq (o : OSS) (idx : Nat) (ins : Instruction)
    (h : o.pos = o.data.length) :
    writeInstrLine o idx ins =
      ⟨o.data ++ (instrLineChars idx ins ++ ['\n']),
       (o.data ++ (instrLineChars idx ins ++ ['\n'])).length⟩ := by
  unfold writeInstrLine instrLineChars ossEndl
  rw [ossWrite_append o _ h]
  rw [ossWrite_foldl (fun f => (toString f ++ " ").data) _ _ rfl]
  rw [ossWrite_append _ _ rfl]
  rw [if_pos (by
    rw [List.getLast?_append_of_ne_nil _ (instrTail_ne_nil ins)]
    exact instrTail_getLast ins)]
  rw [ossWrite_append _ _ rfl]
  simp [List.append_assoc]

theorem writeInstr_foldl :
    ∀ (l : List (Nat × Instruction)) (o : OSS), o.pos = o.data.length →
      l.foldl (fun acc p => writeInstrLine acc p.1 p.2) o =
        ⟨o.data ++ (l.map (fun p => instrLineChars p.1 p.2 ++ ['\n'])).flatten,
         (o.data ++ (l.map (fun p => instrLineChars p.1 p.2 ++ ['\n'])).flatten).length⟩ := by
  intro l
  induction l with
  | nil =>
      intro o h
      simp only [List.foldl_nil, List.map_nil, List.flatten_nil, List.append_nil]
      cases o
      simp_all
  | cons x xs ih =>
      intro o h
      simp only [List.foldl_cons, List.map_cons, List.flatten_cons]
      rw [writeInstrLine_eq o x.1 x.2 h]
      rw [ih _ rfl]
      simp [List.append_assoc]

/-- The raw characters of one function block, separator included. -/
def blockChars (i : Nat) (f : VMFunction) : List Char :=
  ((blockLines i f).map (· ++ ['\n'])).flatten ++ ['\n']

theorem ossWrite_append' (D s : List Char) :
    ossWrite ⟨D, D.length⟩ s = ⟨D ++ s, (D ++ s).length⟩ :=
  ossWrite_append ⟨D, D.length⟩ s rfl

theorem writeInstr_foldl' (l : List (Nat × Instruction)) (D : List Char) :
    l.foldl (fun acc p => writeInstrLine acc p.1 p.2) ⟨D, D.length⟩ =
      ⟨D ++ (l.map (fun p => instrLineChars p.1 p.2 ++ ['\n'])).flatten,
       (D ++ (l.map (fun p => instrLineChars p.1 p.2 ++ ['\n'])).flatten).length⟩ :=
  writeInstr_foldl l ⟨D, D.length⟩ rfl

theorem writeFunction_eq (o : OSS) (i : Nat) (f : VMFunction)
    (h : o.pos = o.data.length) :
    writeFunction o i f =
      ⟨o.data ++ blockChars i f, (o.data ++ blockChars i f).length⟩ := by
  unfold writeFunction
  rw [writeHeaderLine_eq o i f h]
  rw [ossWrite_append', ossWrite_append', ossWrite_append']
  rw [writeInstr_foldl']
  rw [ossWrite_append']
  unfold blockChars blockLines
  simp [List.map_append, List.map_map, List.flatten_append, Function.comp,
    List.append_assoc]
  exact ⟨rfl, rfl⟩

theorem writeFunction_foldl :
    ∀ (ps : List (Nat × VMFunction)) (o : OSS), o.pos = o.data.length →
      ps.foldl (fun acc p => writeFunction acc p.1 p.2) o =
        ⟨o.data ++ (ps.map (fun p => blockChars p.1 p.2)).flatten,
         (o.data ++ (ps.map (fun p => blockChars p.1 p.2)).flatten).length⟩ := by
  intro ps
  induction ps with
  | nil =>
      intro o h
      simp only [List.foldl_nil, List.map_nil, List.flatten_nil, List.append_nil]
      cases o
      simp_all
  | cons x xs ih =>
      intro o h
      simp only [List.foldl_cons, List.map_cons, List.flatten_cons]
      rw [writeFunction_eq o x.1 x.2 h]
      rw [ih _ rfl]
      simp [List.append_assoc]

theorem getBytecode_data (e : Executable V) :
    (e.GetBytecode).data =
      (e.functions.enum.map (fun p => blockChars p.1 p.2)).flatten := by
  unfold Executable.GetBytecode
  rw [writeFunction_foldl _ _ rfl]
  rfl

theorem splitLines_chunk (c : List Char) (h : '\n' ∉ c) (rest : List Char) :
    splitLines (c ++ '\n' :: rest) = c :: splitLines rest := by
  induction c with
  | nil => simp [splitLines]
  | cons a c ih =>
      have ha : a ≠ '\n' := fun he => h (by rw [he]; exact List.mem_cons_self _ _)
      simp only [List.cons_append, splitLines, if_neg ha, List.append_eq]
      rw [ih (fun hm => h (List.mem_cons_of_mem a hm))]

theorem splitLines_flatten (lines : List (List Char))
    (h : ∀ l ∈ lines, '\n' ∉ l) (rest : List Char) :
    splitLines ((lines.map (· ++ ['\n'])).flatten ++ rest) =
      lines ++ splitLines rest := by
  induction lines with
  | nil => simp
  | cons l ls ih =>
      simp only [List.map_cons, List.flatten_cons, List.append_assoc,
        List.singleton_append, List.cons_append, List.nil_append]
      rw [splitLines_chunk l (h l (List.mem_cons_self l ls))]
      rw [ih (fun l' hm => h l' (List.mem_cons_of_mem l hm))]

theorem splitLines_blocks :
    ∀ (ps : List (Nat × VMFunction)),
      (∀ p ∈ ps, ∀ l ∈ blockLines p.1 p.2, '\n' ∉ l) →
      splitLines ((ps.map (fun p => blockChars p.1 p.2)).flatten) =
        (ps.map (fun p => blockLines p.1 p.2 ++ [[]])).flatten ++ [[]] := by
  intro ps
  induction ps with
  | nil => intro _; simp [splitLines]
  | cons p ps ih =>
      intro h
      simp only [List.map_cons, List.flatten_cons]
      rw [show blockChars p.1 p.2 =
        ((blockLines p.1 p.2).map (· ++ ['\n'])).flatten ++ ['\n'] from rfl]
      rw [List.append_assoc]
      rw [splitLines_flatten _ (h p (List.mem_cons_self p ps))]
      rw [List.singleton_append]
      rw [show splitLines ('\n' :: (ps.map (fun q => blockChars q.1 q.2)).flatten) =
        [] :: splitLines ((ps.map (fun q => blockChars q.1 q.2)).flatten) from by
          simp [splitLines]]
      rw [ih (fun q hq => h q (List.mem_cons_of_mem p hq))]
      simp

theorem replicate_space_no_newline (n : Nat) : '\n' ∉ List.replicate n ' ' := by
  intro hm
  exact absurd (List.eq_of_mem_replicate hm) (by decide)

theorem natToString_no_newline (n : Nat) : '\n' ∉ (toString n).data :=
  natRepr_no_newline n

theorem intToString_no_newline (i : Int) : '\n' ∉ (toString i).data :=
  intRepr_no_newline i

theorem instrText_no_newline (ins : Instruction) : '\n' ∉ (instrText ins).data := by
  cases ins <;> simp only [instrText] <;> decide

theorem headerPre_no_newline (i : Nat) (f : VMFunction) (hn : '\n' ∉ f.name.data)
    (hp : ∀ p ∈ f.params, '\n' ∉ p.data) : '\n' ∉ headerPre i f := by
  unfold headerPre
  refine no_newline_append ?_ ?_
  · rw [String.data_append, String.data_append, String.data_append, String.data_append]
    exact no_newline_append (no_newline_append (no_newline_append
      (no_newline_append (by decide) (natToString_no_newline i)) (by decide)) hn)
      (by decide)
  · refine no_newline_flatten ?_
    intro l hl
    obtain ⟨p, hp', rfl⟩ := List.mem_map.mp hl
    rw [String.data_append]
    exact no_newline_append (hp p hp') (by decide)

theorem headerChars_no_newline (i : Nat) (f : VMFunction) (hn : '\n' ∉ f.name.data)
    (hp : ∀ p ∈ f.params, '\n' ∉ p.data) : '\n' ∉ headerChars i f := by
  unfold headerChars
  refine no_newline_append ?_ (by decide)
  intro hm
  exact headerPre_no_newline i f hn hp (List.take_subset _ _ hm)

theorem instrLineChars_no_newline (idx : Nat) (ins : Instruction) :
    '\n' ∉ instrLineChars idx ins := by
  unfold instrLineChars
  refine no_newline_append (no_newline_append ?_ ?_) ?_
  · rw [String.data_append, String.data_append, String.data_append]
    refine no_newline_append (no_newline_append (no_newline_append ?_ (by decide))
      (intToString_no_newline _)) (by decide)
    unfold padw2
    rw [String.data_append]
    exact no_newline_append (replicate_space_no_newline _) (natToString_no_newline idx)
  · refine no_newline_flatten ?_
    intro l hl
    obtain ⟨g, hg, rfl⟩ := List.mem_map.mp hl
    rw [String.data_append]
    exact no_newline_append (intToString_no_newline _) (by decide)
  · rw [String.data_append]
    exact no_newline_append (by decide) (instrText_no_newline ins)

theorem blockLines_no_newline (i : Nat) (f : VMFunction) (hn : '\n' ∉ f.name.data)
    (hp : ∀ p ∈ f.params, '\n' ∉ p.data) : ∀ l ∈ blockLines i f, '\n' ∉ l := by
  intro l hl
  unfold blockLines at hl
  rcases List.mem_append.mp hl with hl | hl
  · simp only [List.mem_cons, List.not_mem_nil, or_false] at hl
    rcases hl with rfl | rfl | rfl | rfl
    · exact headerChars_no_newline i f hn hp
    · rw [String.data_append]
      exact no_newline_append (by decide) (intToString_no_newline _)
    · rw [String.data_append]
      exact no_newline_append (by decide) (natToString_no_newline _)
    · decide
  · obtain ⟨q, hq, rfl⟩ := List.mem_map.mp hl
    exact instrLineChars_no_newline q.1 q.2

theorem blockLines_length (i : Nat) (f : VMFunction) :
    (blockLines i f).length = f.instructions.length + 4 := by
  unfold blockLines
  rw [List.length_append, List.length_map, List.enum_length]
  simp [Nat.add_comm]

theorem blockLines_ne_nil (i : Nat) (f : VMFunction) :
    ∀ l ∈ blockLines i f, l ≠ [] := by
  intro l hl
  unfold blockLines at hl
  rcases List.mem_append.mp hl with hl | hl
  · simp only [List.mem_cons, List.not_mem_nil, or_false] at hl
    rcases hl with rfl | rfl | rfl | rfl
    · simp [headerChars]
    · simp [String.data_append]
    · simp [String.data_append]
    · decide
  · obtain ⟨q, hq, rfl⟩ := List.mem_map.mp hl
    unfold instrLineChars
    simp [String.data_append]

theorem blockLines_instr_slot (i : Nat) (f : VMFunction) :
    ∀ q ∈ f.instructions.enum,
      (blockLines i f)[4 + q.1]? = some (instrLineChars q.1 q.2) := by
  intro q hq
  have hget : f.instructions.enum[q.1]? = some q := by
    rw [List.getElem?_enum, List.mem_enum_iff_getElem?.mp hq]
    rfl
  unfold blockLines
  rw [List.getElem?_append]
  rw [if_neg (by simp)]
  rw [show 4 + q.1 - ([headerChars i f,
    ("# reg file size = " ++ toString f.register_file_size).data,
    ("# instruction count = " ++ toString f.instructions.length).data,
    "opcode, fields # inst(text):".data] : List (List Char)).length = q.1 by simp]
  rw [List.getElem?_map, hget]
  rfl

/-- C9 (amended): for every executable whose function and parameter names
contain no newline, the disassembly splits into exactly `|functions|` blocks
in order; each block consists of `|instructions| + 4` non-blank lines — the
header, the two `#` comment lines, the `opcode, fields # inst(text):`
caption, and one line per instruction — followed by its blank separator, and
the instruction line at offset `4 + j` of a block carries the printed index
`j`, so indices are contiguous from 0. -/
theorem C9_disassembly_shape :
    ∀ (V : Type) (e : Executable V),
      (∀ f ∈ e.functions, '\n' ∉ f.name.data ∧ ∀ p ∈ f.params, '\n' ∉ p.data) →
      splitLines (e.GetBytecode).data =
          (e.functions.enum.map (fun p => blockLines p.1 p.2 ++ [[]])).flatten ++ [[]] ∧
        (∀ p ∈ e.functions.enum,
          (blockLines p.1 p.2).length = p.2.instructions.length + 4 ∧
            ∀ l ∈ blockLines p.1 p.2, l ≠ []) ∧
        (∀ p ∈ e.functions.enum, ∀ q ∈ p.2.instructions.enum,
          (blockLines p.1 p.2)[4 + q.1]? = some (instrLineChars q.1 q.2)) := by
  intro V e hclean
  have hmem : ∀ p ∈ e.functions.enum, p.2 ∈ e.functions := by
    intro p hp
    have h := List.mem_enum_iff_getElem?.mp hp
    obtain ⟨hlt, heq⟩ := List.getElem?_eq_some_iff.mp h
    rw [← heq]
    exact List.getElem_mem hlt
  refine ⟨?_, ?_, ?_⟩
  · rw [getBytecode_data]
    apply splitLines_blocks
    intro p hp l hl
    obtain ⟨h1, h2⟩ := hclean p.2 (hmem p hp)
    exact blockLines_no_newline p.1 p.2 h1 h2 l hl
  · intro p _
    exact ⟨blockLines_length p.1 p.2, blockLines_ne_nil p.1 p.2⟩
  · intro p _ q hq
    exact blockLines_instr_slot p.1 p.2 q hq

/-- Fixed zero-instruction function for the C9 counterexample. -/
def c9Func : VMFunction := ⟨"main", ["x"], [], 2⟩

/-- Fixed executable for the C9 counterexample. -/
def c9Exec : Executable Unit := ⟨[], [("main", 0)], [], [c9Func]⟩

/-- C9 counterexample: the single block of this one-function executable has 4
non-blank lines (header, two `#` lines, the caption), not
`|instructions| + 3 = 3` as the claim states. -/
theorem C9_counterexample_four_nonblank_lines :
    ((splitLines (c9Exec.GetBytecode).data).filter (fun l => !l.isEmpty)).length =
        c9Func.instructions.length + 4 ∧
      c9Func.instructions.length + 4 ≠ c9Func.instructions.length + 3 := by
  constructor
  · decide
  · decide

/-- Fixed two-instruction function for the C9 witness. -/
def c9wFunc : VMFunction := ⟨"main", ["x"], [.move 0 1, .ret 1], 2⟩

/-- Fixed executable for the C9 witness. -/
def c9wExec : Executable Unit := ⟨[], [("main", 0)], [], [c9wFunc]⟩

theorem C9_disassembly_shape_witness :
    splitLines (c9wExec.GetBytecode).data =
        (c9wExec.functions.enum.map (fun p => blockLines p.1 p.2 ++ [[]])).flatten ++ [[]] ∧
      (blockLines 0 c9wFunc).length = c9wFunc.instructions.length + 4 ∧
      (blockLines 0 c9wFunc)[4 + 0]? = some (instrLineChars 0 (.move 0 1)) := by
  have h := C9_disassembly_shape Unit c9wExec (by decide)
  exact ⟨h.1, (h.2.1 (0, c9wFunc) (by decide)).1,
    h.2.2 (0, c9wFunc) (by decide) (0, .move 0 1) (by decide)⟩

/-- C10: when a function has no parameters, the unconditional two-character
rewind before writing `)` overwrites the `(` and the final character of the
function name, so the header line `GetBytecode` produces is
`VM Function[i]: <name minus its last character>)` — never of the claimed
well-formed shape `VM Function[i]: <name>()`; for a leading function the
first line of the disassembly is exactly that corrupted header. -/
theorem C10_empty_params_header_corruption :
    ∀ (i : Nat) (f : VMFunction), f.params = [] →
      (headerChars i f =
          ("VM Function[" ++ toString i ++ "]: " ++ f.name).data.dropLast ++ [')']) ∧
      (headerChars i f ≠ ("VM Function[" ++ toString i ++ "]: " ++ f.name ++ "()").data) ∧
      (∀ (V : Type) (e : Executable V) (rest : List VMFunction),
        e.functions = f :: rest → '\n' ∉ f.name.data →
        (splitLines (e.GetBytecode).data).head? = some (headerChars 0 f)) := by
  intro i f hparams
  have hlenA : 12 ≤ (("VM Function[" ++ toString i ++ "]: " ++ f.name).data).length := by
    simp only [String.data_append, List.length_append, List.length_cons, List.length_nil]
    omega
  have h1 : headerChars i f =
      ("VM Function[" ++ toString i ++ "]: " ++ f.name).data.dropLast ++ [')'] := by
    unfold headerChars headerPre
    rw [hparams]
    simp only [List.map_nil, List.flatten_nil, List.append_nil]
    rw [show ("VM Function[" ++ toString i ++ "]: " ++ f.name ++ "(").data =
      ("VM Function[" ++ toString i ++ "]: " ++ f.name).data ++ ['('] by
        rw [String.data_append]]
    rw [List.length_append]
    simp only [List.length_cons, List.length_nil]
    rw [show ("VM Function[" ++ toString i ++ "]: " ++ f.name).data.length + 1 - 2 =
      ("VM Function[" ++ toString i ++ "]: " ++ f.name).data.length - 1 by omega]
    rw [List.take_append_eq_append_take]
    rw [show ("VM Function[" ++ toString i ++ "]: " ++ f.name).data.length - 1 -
      ("VM Function[" ++ toString i ++ "]: " ++ f.name).data.length = 0 by omega]
    rw [List.take_zero, List.append_nil, ← List.dropLast_eq_take]
  refine ⟨h1, ?_, ?_⟩
  · rw [h1]
    intro heq
    have hl := congrArg List.length heq
    simp only [String.data_append, List.length_append, List.length_dropLast,
      List.length_cons, List.length_nil] at hl
    omega
  · intro V e rest hfe hnl
    have hnoNL : '\n' ∉ headerChars 0 f := by
      refine headerChars_no_newline 0 f hnl ?_
      intro p hp'
      rw [hparams] at hp'
      cases hp'
    rw [getBytecode_data, hfe, List.enum_cons]
    simp only [List.map_cons, List.flatten_cons]
    rw [show blockChars 0 f =
      ((blockLines 0 f).map (· ++ ['\n'])).flatten ++ ['\n'] from rfl]
    obtain ⟨t, ht⟩ : ∃ t, blockLines 0 f = headerChars 0 f :: t := ⟨_, rfl⟩
    rw [ht]
    simp only [List.map_cons, List.flatten_cons, List.append_assoc,
      List.singleton_append, List.cons_append, List.nil_append]
    rw [splitLines_chunk _ hnoNL]
    rfl

/-- Fixed parameterless function for the C10 witness. -/
def c10Func : VMFunction := ⟨"main", [], [], 2⟩

/-- Fixed executable for the C10 witness. -/
def c10Exec : Executable Unit := ⟨[], [("main", 0)], [], [c10Func]⟩

theorem C10_empty_params_header_corruption_witness :
    (headerChars 0 c10Func =
        ("VM Function[" ++ toString (0 : Nat) ++ "]: " ++ c10Func.name).data.dropLast ++
          [')']) ∧
      (headerChars 0 c10Func ≠
        ("VM Function[" ++ toString (0 : Nat) ++ "]: " ++ c10Func.name ++ "()").data) ∧
      (splitLines (c10Exec.GetBytecode).data).head? = some (headerChars 0 c10Func) := by
  have h := C10_empty_params_header_corruption 0 c10Func rfl
  exact ⟨h.1, h.2.1, h.2.2 Unit c10Exec [] rfl (by decide)⟩
